import Mathlib

/-!
Verification of the core bNotify delivery pipeline against its specification.

The development shallowly embeds:
* the receiver-side replay guard `UsedSequences` (Java,
  `bnotify-app/.../UsedSequences.java`) including its Java `long`
  signed/unsigned comparison semantics,
* the receiver-side `checkSeq`/state-persistence path
  (`bnotify-app/.../GcmIntentService.java`),
* the sender daemon `SendNotification` transaction, nonce construction,
  and `sendPayload` retry loop (Go, the canonical daemon variant).

Machine integers are modelled as `Nat` bit patterns below `2^64`; Java
`long` arithmetic wraps modulo `2^64` and signed comparisons go through an
explicit reinterpretation `toSigned`.
-/

namespace BNotify

/-- Constant `2^64`, the modulus of 64-bit (Java `long` / Go `uint64`) arithmetic. -/
def M : Nat := 2^64

/-- Reinterpret a 64-bit pattern as the signed Java `long` value. -/
def toSigned (n : Nat) : Int := if n < 2^63 then (n : Int) else (n : Int) - (M : Int)

/-- Java `a >= b` on `long`s holding the given bit patterns (signed). -/
def sge (a b : Nat) : Bool := toSigned b ≤ toSigned a

/-- Java `a <= b` on `long`s holding the given bit patterns (signed). -/
def sle (a b : Nat) : Bool := toSigned a ≤ toSigned b

/-! ## UsedSequences (receiver replay guard)

`UsedSequences` keeps a `TreeSet<Range>` ordered by
`UnsignedLongs.compare(this.min, that.min)`.  We model the tree set as a
list of ranges sorted strictly by `min` under unsigned (that is, plain
`Nat`) order; `floor`/`ceiling`/`remove`/`add` below implement exactly the
`TreeSet` operations under that comparator. -/

/-- A closed interval of sequence numbers, both endpoints inclusive;
64-bit patterns stored as `Nat`. -/
structure Range where
  min : Nat
  max : Nat
deriving Repr, DecidableEq

/-- The checked two-argument `Range` constructor:
`checkState(UnsignedLongs.compare(min, max) <= 0)`; `none` models the
thrown `IllegalStateException`. -/
def mkRange (mn mx : Nat) : Option Range :=
  if mn ≤ mx then some ⟨mn, mx⟩ else none

/-- Model of `TreeSet.floor(new Range(v, v))`: the greatest element whose `min` is
unsigned-`≤ v` (the comparator looks only at `min`). -/
def floorR (s : List Range) (v : Nat) : Option Range :=
  (s.filter (fun r => r.min ≤ v)).getLast?

/-- Model of `TreeSet.ceiling(new Range(v, v))`: the least element whose `min` is
unsigned-`≥ v`. -/
def ceilingR (s : List Range) (v : Nat) : Option Range :=
  (s.filter (fun r => v ≤ r.min)).head?

/-- Model of `TreeSet.remove`: removes the (first) element the comparator deems
equal, i.e. the one with the given `min`. -/
def removeMinR : List Range → Nat → List Range
  | [], _ => []
  | r :: rs, m => if r.min = m then rs else r :: removeMinR rs m

/-- Model of `TreeSet.add`: sorted insertion by `min`; a no-op when an element with
the same `min` is already present (the comparator deems them equal). -/
def addR : List Range → Range → List Range
  | [], r => [r]
  | x :: xs, r =>
    if r.min < x.min then r :: x :: xs
    else if r.min = x.min then x :: xs
    else x :: addR xs r

/-- Translation of `UsedSequences.use(long value)`, statement by statement.

The two coverage tests `floor.max >= value` and `ceiling.min <= value` are
bare Java `long` comparisons in the source, hence SIGNED (`sge`/`sle`);
only the `TreeSet` comparator and the `Range` constructor use
`UnsignedLongs.compare`.  `floor.max + 1` and `ceiling.min - 1` are
wrapping `long` arithmetic.  A `false` return leaves the set as it is at
that point (the floor may already have been removed).  `none` models an
`IllegalStateException` out of the final `new Range(min, max)`. -/
def use (s0 : List Range) (value : Nat) : Option (Bool × List Range) :=
  -- long min = value; long max = value;
  -- Range floor = usedSeqs.floor(range); ...
  let fres : Option (Nat × List Range) :=
    match floorR s0 value with
    | none => some (value, s0)
    | some f =>
      if sge f.max value then none        -- if (floor.max >= value) return false
      else if (f.max + 1) % M = value then
        some (f.min, removeMinR s0 f.min) -- min = floor.min; usedSeqs.remove(floor)
      else some (value, s0)
  match fres with
  | none => some (false, s0)
  | some (min1, s1) =>
    -- Range ceiling = usedSeqs.ceiling(range); ...
    let cres : Option (Nat × List Range) :=
      match ceilingR s1 value with
      | none => some (value, s1)
      | some c =>
        if sle c.min value then none        -- if (ceiling.min <= value) return false
        else if (c.min + (M - 1)) % M = value then
          some (c.max, removeMinR s1 c.min) -- max = ceiling.max; usedSeqs.remove(ceiling)
        else some (value, s1)
    match cres with
    | none => some (false, s1)
    | some (max1, s2) =>
      -- if (min != value || max != value) range = new Range(min, max);
      -- usedSeqs.add(range); return true;
      if min1 ≠ value ∨ max1 ≠ value then
        match mkRange min1 max1 with
        | none => none
        | some r => some (true, addR s2 r)
      else some (true, addR s2 ⟨value, value⟩)

/-- A serialized `BNotifyProtos.SequenceRange`: `(min, max)` bit patterns. -/
abbrev SeqRange := Nat × Nat

/-- Translation of `UsedSequences.fromProto`: rebuilds the tree set, checking for each
range `checkState(min <= max)` (in the `Range` constructor) and, against
the previous list element, `checkState(UnsignedLongs.compare(last.max + 1,
cur.min) < 0)` where `last.max + 1` is wrapping `long` arithmetic.
`none` models a thrown `IllegalStateException`. -/
def fromProto (l : List SeqRange) : Option (List Range) :=
  go none [] l
where
  go : Option Range → List Range → List SeqRange → Option (List Range)
  | _, acc, [] => some acc
  | last, acc, (mn, mx) :: rest =>
    match mkRange mn mx with
    | none => none
    | some cur =>
      match last with
      | none => go (some cur) (addR acc cur) rest
      | some lr =>
        if (lr.max + 1) % M < cur.min then go (some cur) (addR acc cur) rest
        else none

/-- Translation of `UsedSequences.toProto`: the method builds an
`ImmutableList.Builder` (`seqRangesBuilder`) and a separate `ArrayList`
(`seqRanges`), adds every range to the `ArrayList` only, and returns
`seqRangesBuilder.build()` — the (empty) contents of the builder. -/
def toProto (u : List Range) : List SeqRange :=
  let seqRangesBuilder : List SeqRange := []
  let seqRanges : List SeqRange := u.map (fun r => (r.min, r.max))
  -- return seqRangesBuilder.build();
  let _ := seqRanges
  seqRangesBuilder

/-! ### The replay-guard invariant -/

/-- Consecutive ranges are strictly separated: `prev.max + 1` is strictly
below `next.min` (exact arithmetic; both quantities are genuine u64 values
in every state the spec considers). This gives strict sortedness by `min`,
disjointness, and non-adjacency in one pass. -/
def chainOk : List Range → Bool
  | [] => true
  | [_] => true
  | a :: b :: rest => decide (a.max + 1 < b.min) && chainOk (b :: rest)

/-- The `UsedRange`-set invariant: every range has `min ≤ max` (unsigned),
within the 64-bit universe, and consecutive ranges are strictly separated
(hence strictly sorted and pairwise disjoint, no two adjacent). -/
def rangesOk (s : List Range) : Bool :=
  s.all (fun r => r.min ≤ r.max && r.max < M) && chainOk s

/-- Membership of a sequence number in the set covered by a range list. -/
def covers (s : List Range) (v : Nat) : Bool :=
  s.any (fun r => r.min ≤ v && v ≤ r.max)

/-! ## GcmIntentService: `checkSeq` and state persistence (receiver)

The service re-reads the persisted `BNotifyClientState` file on every
delivery (`getUsedSeqsByServer`), parses the range list of each server with
`UsedSequences.fromProto`, runs `use`, and — when the value is accepted —
re-serializes every entry with `toProto` and writes the file back
(`setUsedSeqsByServer`) before the notification is surfaced. -/

/-- One `BNotifyClientState.ServerInfo` entry of the persisted state file. -/
structure ServerInfo where
  serverId : List Nat
  usedSeqs : List SeqRange
deriving Repr, DecidableEq

/-- The persisted client state file: a list of per-server entries. -/
abbrev ClientState := List ServerInfo

/-- Translation of `getUsedSeqsByServer`: parse every entry via
`fromProto`; `none` models the exception a corrupt entry raises. -/
def getUsedSeqsByServer (st : ClientState) :
    Option (List (List Nat × List Range)) :=
  st.mapM (fun si => (fromProto si.usedSeqs).map (fun rs => (si.serverId, rs)))

/-- Assoc-list lookup standing for `HashMap.get`. -/
def mapGet (m : List (List Nat × List Range)) (sid : List Nat) :
    Option (List Range) :=
  (m.find? (fun p => p.1 == sid)).map (·.2)

/-- Assoc-list update standing for the in-place mutation of the
`UsedSequences` object held in the map. -/
def mapSet (m : List (List Nat × List Range)) (sid : List Nat)
    (rs : List Range) : List (List Nat × List Range) :=
  m.map (fun p => if p.1 == sid then (p.1, rs) else p)

/-- Translation of `setUsedSeqsByServer`: re-serialize every map entry
with `toProto` and write the state file. -/
def setUsedSeqsByServer (m : List (List Nat × List Range)) : ClientState :=
  m.map (fun p => ⟨p.1, toProto p.2⟩)

/-- Translation of `checkSeq(message)` followed by the surfacing decision of
`onHandleIntent`: returns whether the notification is surfaced, together
with the state file as persisted afterwards.  `none` models an exception
out of `fromProto`/`use`. -/
def checkSeq (st : ClientState) (sid : List Nat) (seq : Nat) :
    Option (Bool × ClientState) := do
  let m ← getUsedSeqsByServer st
  match mapGet m sid with
  | none =>
    -- allowMessage = true; usedSeqs = createEmpty(); usedSeqs.use(seq);
    -- usedSeqsByServer.put(serverId, usedSeqs);
    let r ← use [] seq
    let m := m ++ [(sid, r.2)]
    some (true, setUsedSeqsByServer m)
  | some us =>
    let r ← use us seq
    let m := mapSet m sid r.2
    if r.1 then some (true, setUsedSeqsByServer m)
    else some (false, st)

/-! ## Sender daemon (canonical Go variant)

The daemon keeps a bolt database with buckets `settings` (holding
`serverID`) and `pending_messages` (holding the bucket sequence counter
and, keyed by the 8-byte big-endian sequence number, marshalled
`PendingPayload` protos).  `binary.BigEndian.PutUint64` is injective on
`uint64`, so pending keys are modelled by the sequence number itself and
payloads structurally (proto marshalling is a bijection on these
messages). -/

/-- The 8-byte big-endian encoding `binary.BigEndian.PutUint64`. -/
def beBytes8 (n : Nat) : List Nat :=
  [n / 2^56 % 256, n / 2^48 % 256, n / 2^40 % 256, n / 2^32 % 256,
   n / 2^24 % 256, n / 2^16 % 256, n / 2^8 % 256, n % 256]

/-- Big-endian byte-list decoding, inverse of `beBytes8` below `2^64`. -/
def fromBE8 (l : List Nat) : Nat := l.foldl (fun acc b => acc * 256 + b) 0

/-- `nonce := append(serverID, key...)` with `key` the big-endian bytes of
the sequence number: the AEAD nonce used by `SendNotification`. -/
def nonceOf (serverID : List Nat) (seq : Nat) : List Nat :=
  serverID ++ beBytes8 seq

/-- The plaintext notification content. -/
structure Notification where
  title : String
  text : String
deriving Repr, DecidableEq

/-- The wire `Envelope` proto: AEAD ciphertext plus the nonce. -/
structure Envelope where
  message : List Nat
  nonce : List Nat
deriving Repr, DecidableEq

/-- A stored `PendingPayload` proto: the marshalled envelope plus the
send-attempt counter. -/
structure PendingPayload where
  payload : Envelope
  sendAttempts : Nat
deriving Repr, DecidableEq

/-- External pure functions the daemon calls: proto marshalling of the
plaintext `Message` and the AEAD `Seal` (nonce, plaintext ↦ ciphertext).
The claims do not depend on their behaviour, only on how the daemon
plumbs them, so they are parameters of the embedding. -/
structure ExternalFns where
  marshalMessage : List Nat → Nat → Notification → List Nat
  sealAEAD : List Nat → List Nat → List Nat

/-- The `pending_messages` bucket: the bolt per-bucket sequence counter
plus the stored payloads keyed by sequence number. -/
structure MessagesBucket where
  seqCounter : Nat
  items : List (Nat × PendingPayload)
deriving Repr, DecidableEq

/-- The `settings` bucket. -/
structure SettingsBucket where
  serverID : Option (List Nat)
deriving Repr, DecidableEq

/-- The durable bolt database of the daemon; `none` buckets are absent. -/
structure SenderStore where
  settings : Option SettingsBucket
  messages : Option MessagesBucket
deriving Repr, DecidableEq

/-- Bucket `Get` on the pending items. -/
def lookupSeq (items : List (Nat × PendingPayload)) (k : Nat) :
    Option PendingPayload :=
  (items.find? (fun p => p.1 == k)).map (·.2)

/-- Bucket `Put` on the pending items (replace or append). -/
def putSeq (items : List (Nat × PendingPayload)) (k : Nat)
    (v : PendingPayload) : List (Nat × PendingPayload) :=
  if items.any (fun p => p.1 == k) then
    items.map (fun p => if p.1 == k then (k, v) else p)
  else items ++ [(k, v)]

/-- Bucket `Delete` on the pending items. -/
def delSeq (items : List (Nat × PendingPayload)) (k : Nat) :
    List (Nat × PendingPayload) :=
  items.filter (fun p => p.1 != k)

/-- The fixed backoff schedule `waits` (in seconds):
`{0, 1s, 2s, 4s, 8s, 16s, 1m, 2m, 4m, 8m, 16m}`, length `K = 11`. -/
def waits : List Nat := [0, 1, 2, 4, 8, 16, 60, 120, 240, 480, 960]

/-- The body of the `db.Batch` transaction of `SendNotification`, run against a
transaction view of the store: read `serverID`, allocate the next bucket
sequence (`NextSequence` increments the persisted counter and returns the
new value), marshal `Message{serverID, seq, notification}`, build
`nonce = serverID ‖ bigEndian64(seq)`, seal, and `Put` the
`PendingPayload{payload, sendAttempts = 0}` under the sequence key.
Returns the mutated view and the allocated sequence (`.error` models the
function returning a non-nil error). -/
def sendNotificationTxBody (ext : ExternalFns) (notif : Notification)
    (s : SenderStore) : SenderStore × Except String Nat :=
  match s.settings with
  | none => (s, .error "missing settings bucket")
  | some sb =>
    match sb.serverID with
    | none => (s, .error "missing serverID")
    | some sid =>
      match s.messages with
      | none => (s, .error "missing pending_messages bucket")
      | some mb =>
        let seq := mb.seqCounter + 1
        let mb1 : MessagesBucket := { mb with seqCounter := seq }
        let plaintext := ext.marshalMessage sid seq notif
        let nonce := nonceOf sid seq
        let ciphertext := ext.sealAEAD nonce plaintext
        let env : Envelope := ⟨ciphertext, nonce⟩
        let pp : PendingPayload := ⟨env, 0⟩
        let mb2 : MessagesBucket := { mb1 with items := putSeq mb1.items seq pp }
        ({ s with messages := some mb2 }, .ok seq)

/-- The `SendNotification` RPC up to (and including) the commit of its
`db.Batch` transaction: request validation, then the transaction.  Bolt
commits the view only when the body returned nil; otherwise the whole
transaction rolls back and the RPC returns `"internal error"`. -/
def sendNotification (ext : ExternalFns) (notif : Notification)
    (s : SenderStore) : SenderStore × Except String Nat :=
  if notif.title = "" then (s, .error "notification missing title")
  else if notif.text = "" then (s, .error "notification missing text")
  else
    match sendNotificationTxBody ext notif s with
    | (s1, .ok seq) => (s1, .ok seq)
    | (_, .error _) => (s, .error "internal error")

/-! ### The `sendPayload` retry loop -/

/-- Observable events of the daemon, in program order. -/
inductive Ev
  /-- the transaction of `SendNotification` committed the pending message -/
  | commitEnqueue (seq : Nat)
  /-- the retry transaction persisted the incremented attempt counter -/
  | persistAttempts (seq attempts : Nat)
  /-- the retry transaction deleted an exhausted pending message -/
  | deleteExhausted (seq : Nat)
  /-- a call to `time.Sleep(waitTime)` -/
  | sleep (d : Nat)
  /-- a call to `postPayloadToGCM(payload)`: one gateway network attempt -/
  | gateway (seq : Nat) (payload : Envelope)
  /-- deletion of a delivered pending message -/
  | deleteDelivered (seq : Nat)
  /-- a runtime panic: `waits[idx]` with `idx` out of bounds -/
  | panicOOB (idx : Nat)
  /-- the retry transaction failed; the goroutine logs and returns -/
  | txAbort (seq : Nat)
deriving Repr, DecidableEq

/-- How one iteration of the `sendPayload` retry loop ended. -/
inductive Ctl
  /-- the iteration ended in `return` -/
  | ret
  /-- the iteration ended in `continue` (gateway failure: retry) -/
  | cont
  /-- runtime panic (out-of-range index) -/
  | panicked
deriving Repr, DecidableEq

/-- One iteration of the `for` loop of `sendPayload`, with `gwOk` the
outcome of the gateway call made in this iteration.  Faithful to the source: the
read-and-update transaction increments-and-persists the counter when
`sendAttempts < len(waits)` and deletes the message otherwise; after the
transaction the code merely LOGS when `sendAttempts >= len(waits)` (there
is no `return` in that branch) and then evaluates `waits[sendAttempts]`,
which panics when the index is out of range. -/
def sendPayloadIter (s : SenderStore) (seq : Nat) (gwOk : Bool) :
    SenderStore × List Ev × Ctl :=
  match s.messages with
  | none => (s, [.txAbort seq], .ret)
  | some mb =>
    match lookupSeq mb.items seq with
    | none => (s, [.txAbort seq], .ret)
    | some pp =>
      let payload := pp.payload
      let a := pp.sendAttempts
      let (s1, evs1) :=
        if a < waits.length then
          let items1 := putSeq mb.items seq ({ pp with sendAttempts := a + 1 })
          ({ s with messages := some ({ mb with items := items1 }) },
           [Ev.persistAttempts seq (a + 1)])
        else
          ({ s with messages := some ({ mb with items := delSeq mb.items seq }) },
           [Ev.deleteExhausted seq])
      -- if sendAttempts >= len(waits) { log "Too many retries, giving up" }
      -- waitTime := waits[sendAttempts]
      match waits[a]? with
      | none => (s1, evs1 ++ [.panicOOB a], .panicked)
      | some w =>
        let evs2 := evs1 ++ (if 0 < w then [Ev.sleep w] else [])
        if gwOk then
          match s1.messages with
          | none => (s1, evs2 ++ [.gateway seq payload, .txAbort seq], .ret)
          | some mb1 =>
            ({ s1 with messages := some ({ mb1 with items := delSeq mb1.items seq }) },
             evs2 ++ [.gateway seq payload, .deleteDelivered seq], .ret)
        else (s1, evs2 ++ [.gateway seq payload], .cont)

/-- The `sendPayload` goroutine: iterate `sendPayloadIter`, consuming one gateway outcome from the oracle `gw` per attempt.  `fuel` bounds the
number of loop iterations (the loop itself terminates after at most
`len(waits) + 1` iterations since the persisted counter grows). -/
def sendPayloadLoop (fuel : Nat) (s : SenderStore) (seq : Nat)
    (gw : List Bool) : SenderStore × List Ev :=
  match fuel with
  | 0 => (s, [])
  | fuel + 1 =>
    let (s1, evs, ctl) := sendPayloadIter s seq (gw.headD false)
    match ctl with
    | .ret => (s1, evs)
    | .panicked => (s1, evs)
    | .cont =>
      let (s2, evs2) := sendPayloadLoop fuel s1 seq gw.tail
      (s2, evs ++ evs2)

/-- The full handling of one `SendNotification` RPC in program order: the
transaction commits, then (`go ns.sendPayload(seq)`, which starts only
after `db.Batch` returned) the retry loop runs.  Produces the final store
and the event trace. -/
def handleSend (ext : ExternalFns) (notif : Notification) (s : SenderStore)
    (fuel : Nat) (gw : List Bool) : SenderStore × List Ev :=
  match sendNotification ext notif s with
  | (s1, .ok seq) =>
    let (s2, evs) := sendPayloadLoop fuel s1 seq gw
    (s2, Ev.commitEnqueue seq :: evs)
  | (s1, .error _) => (s1, [])

/-! ### Startup (`main`) -/

/-- The startup `db.Update`: create both buckets if absent, collect the
sequence numbers of every stored pending message, and generate-and-store
the 16-byte `serverID` if absent (`newSid` stands for the output of `rand.Read`).  Returns the updated store and the list of pending sequence
numbers for which `main` spawns `go service.sendPayload(seq)`. -/
def restartInit (s : SenderStore) (newSid : List Nat) :
    SenderStore × List Nat :=
  let mb := s.messages.getD ⟨0, []⟩
  let pendingSeqs := mb.items.map (·.1)
  let sb := s.settings.getD ⟨none⟩
  let sb1 : SettingsBucket :=
    match sb.serverID with
    | some _ => sb
    | none => ⟨some newSid⟩
  (⟨some sb1, some mb⟩, pendingSeqs)

/-! ### Sequence allocation across calls and restarts -/

/-- A store is initialized when both buckets exist and a `serverID` is
set — the state `main` guarantees before serving. -/
def initialized (s : SenderStore) : Prop :=
  (∃ sb sid, s.settings = some sb ∧ sb.serverID = some sid) ∧
  ∃ mb, s.messages = some mb

/-- An external action against the daemon: a `SendNotification` RPC or a
kill-and-restart (with the given bytes as the `rand.Read` output). -/
inductive SAction
  | send (notif : Notification)
  | restart (newSid : List Nat)

/-- Run a list of actions, collecting the successfully allocated sequence
numbers in call order. -/
def runActions (ext : ExternalFns) : SenderStore → List SAction →
    SenderStore × List Nat
  | s, [] => (s, [])
  | s, .send notif :: rest =>
    match sendNotification ext notif s with
    | (s1, .ok seq) =>
      ((runActions ext s1 rest).1, seq :: (runActions ext s1 rest).2)
    | (s1, .error _) => runActions ext s1 rest
  | s, .restart newSid :: rest => runActions ext (restartInit s newSid).1 rest

/-- Number of send actions in a list. -/
def numSends : List SAction → Nat
  | [] => 0
  | .send _ :: rest => numSends rest + 1
  | .restart _ :: rest => numSends rest

/-- Every send action carries a valid (non-empty title and text) request. -/
def allValid : List SAction → Prop
  | [] => True
  | .send n :: rest => n.title ≠ "" ∧ n.text ≠ "" ∧ allValid rest
  | .restart _ :: rest => allValid rest


/-- The condition `fromProto` actually checks, threading the previous
range: each range has `min ≤ max` and, against the previous one,
`(prev.max + 1) mod 2^64` is strictly below `min` (unsigned). -/
def wfFromWrap : Option Range → List SeqRange → Bool
  | _, [] => true
  | none, (mn, mx) :: rest => decide (mn ≤ mx) && wfFromWrap (some ⟨mn, mx⟩) rest
  | some lr, (mn, mx) :: rest =>
    decide (mn ≤ mx) && decide ((lr.max + 1) % M < mn) && wfFromWrap (some ⟨mn, mx⟩) rest

/-- Acceptance condition of `fromProto` on a whole list. -/
def protoRangesAccepted (l : List SeqRange) : Bool := wfFromWrap none l

/-- The intended (exact-arithmetic) strict-separation condition: each
range has `min ≤ max` and `prev.max + 1 < min` without wraparound. -/
def wfFromStrict : Option Range → List SeqRange → Bool
  | _, [] => true
  | none, (mn, mx) :: rest => decide (mn ≤ mx) && wfFromStrict (some ⟨mn, mx⟩) rest
  | some lr, (mn, mx) :: rest =>
    decide (mn ≤ mx) && decide (lr.max + 1 < mn) && wfFromStrict (some ⟨mn, mx⟩) rest

/-- Strict-separation condition on a whole list. -/
def protoRangesStrict (l : List SeqRange) : Bool := wfFromStrict none l

/-- The persisted `pending_messages` bucket sequence counter (0 for an
absent bucket): the last allocated sequence number. -/
def nextSeqOf (s : SenderStore) : Nat :=
  match s.messages with
  | some mb => mb.seqCounter
  | none => 0

/-- The pending record built inside the transaction: the sealed envelope
(bound to `nonce = serverID ‖ bigEndian64(seq)`) with zero attempts. -/
def sealedPending (ext : ExternalFns) (sid : List Nat) (seq : Nat)
    (notif : Notification) : PendingPayload :=
  ⟨⟨ext.sealAEAD (nonceOf sid seq) (ext.marshalMessage sid seq notif),
    nonceOf sid seq⟩, 0⟩

/-- A concrete instantiation of the external marshalling and sealing
functions, used by the concrete witnesses below. -/
def ext0 : ExternalFns := ⟨fun _ _ _ => [], fun _ _ => []⟩

/-- A fresh initialized daemon store (serverID `[7]`, counter 0, no
pending messages). -/
def store0 : SenderStore := ⟨some ⟨some [7]⟩, some ⟨0, []⟩⟩

/-- The store after the first successful enqueue on `store0`. -/
def store1 : SenderStore :=
  ⟨some ⟨some [7]⟩, some ⟨1, [(1, ⟨⟨[], nonceOf [7] 1⟩, 0⟩)]⟩⟩

/-- A store holding one pending message (sequence 3, four prior
attempts), as left behind by a crash. -/
def storeP : SenderStore :=
  ⟨some ⟨some [7]⟩, some ⟨5, [(3, ⟨⟨[2], [3]⟩, 4⟩)]⟩⟩

/-! ## Theorems -/

/-- Decoding is a left inverse of the big-endian encoding on `uint64`. -/
theorem fromBE8_beBytes8 (n : Nat) (h : n < M) : fromBE8 (beBytes8 n) = n := by
  simp [fromBE8, beBytes8, M] at *
  omega

/-- C1.  For every ServerIdentity and every two distinct 64-bit sequence
numbers, the nonces the sender constructs — the ServerIdentity bytes
followed by the 8-byte big-endian encoding of the sequence number — are
distinct byte strings, so under a fixed key the seal operation never
reuses a nonce across distinct allocated sequence numbers. -/
theorem nonce_unique_per_identity (sid : List Nat) (seq1 seq2 : Nat)
    (h1 : seq1 < M) (h2 : seq2 < M) (hne : seq1 ≠ seq2) :
    nonceOf sid seq1 ≠ nonceOf sid seq2 := by
  intro heq
  apply hne
  have hb : beBytes8 seq1 = beBytes8 seq2 := List.append_cancel_left heq
  have h1e := fromBE8_beBytes8 seq1 h1
  rw [hb, fromBE8_beBytes8 seq2 h2] at h1e
  omega

/-- Witness for C1 at a concrete identity and the sequence numbers 1, 2. -/
theorem nonce_unique_per_identity_witness :
    nonceOf [7] 1 ≠ nonceOf [7] 2 :=
  nonce_unique_per_identity [7] 1 2 (by decide) (by decide) (by decide)

/-- C2.  The spec examples `use(5); use(5) = (true, false)` and
`use(3); use(5); use(4) = (true, true, true)` with merged range `[3,5]`
do hold, but the claim that the coverage tests `floor.max ≥ seq` and
`ceiling.min ≤ seq` are evaluated under UNSIGNED 64-bit comparison fails:
they are bare Java `long` (signed) comparisons.  Failing input: from the
empty state, `use(2^63)` then `use(1)` returns `(true, false)` although
`1` was never used — the ceiling test `ceiling.min <= value` sees
`2^63` as negative and wrongly reports `1` as covered. -/
theorem use_signed_comparison_bug :
    use [] 5 = some (true, [⟨5, 5⟩]) ∧
    use [⟨5, 5⟩] 5 = some (false, [⟨5, 5⟩]) ∧
    (((use [] 3).bind (fun r => use r.2 5)).bind (fun r => use r.2 4))
      = some (true, [⟨3, 5⟩]) ∧
    use [] (2^63) = some (true, [⟨2^63, 2^63⟩]) ∧
    use [⟨2^63, 2^63⟩] 1 = some (false, [⟨2^63, 2^63⟩]) ∧
    covers [⟨2^63, 2^63⟩] 1 = false := by
  refine ⟨by decide, by decide, by decide, by decide, by decide, by decide⟩

/-- C3.  Delivering the identical envelope (server identity `[7]`,
sequence 5) twice surfaces the notification TWICE: `toProto` returns the
empty builder (the loop adds every range to a separate, unused
`ArrayList`), so the state persisted after the first accept contains no
used range and the second delivery is accepted again. -/
theorem duplicate_delivery_surfaces_twice :
    checkSeq [] [7] 5 = some (true, [⟨[7], []⟩]) ∧
    checkSeq [⟨[7], []⟩] [7] 5 = some (true, [⟨[7], []⟩]) ∧
    toProto [⟨5, 5⟩] = [] := by
  refine ⟨by decide, by decide, by decide⟩

/-- C4.  When the retry loop reads a persisted attempt count equal to
`K = len(waits) = 11`, it deletes the pending message and logs, but does
NOT stop: the branch lacks a `return`, so the code then evaluates
`waits[sendAttempts]` with `sendAttempts = 11` on the 11-element
schedule — an out-of-bounds access (a runtime panic).  The final
conjunct shows the state is reachable: a fresh enqueue whose gateway
always fails ends, after exactly 11 gateway attempts, in the
out-of-bounds access. -/
theorem retry_exhaustion_accesses_schedule_out_of_bounds :
    sendPayloadIter ⟨some ⟨some [7]⟩, some ⟨1, [(1, ⟨⟨[], []⟩, 11⟩)]⟩⟩ 1 false
      = (⟨some ⟨some [7]⟩, some ⟨1, []⟩⟩,
         [Ev.deleteExhausted 1, Ev.panicOOB 11], Ctl.panicked) ∧
    waits.length = 11 ∧ waits[11]? = none ∧
    (((handleSend ⟨fun _ _ _ => [], fun _ _ => []⟩ ⟨"T", "X"⟩
        ⟨some ⟨some [7]⟩, some ⟨0, []⟩⟩ 12 (List.replicate 12 false)).2.filter
          (fun e => match e with | Ev.gateway _ _ => true | _ => false)).length = 11 ∧
     (handleSend ⟨fun _ _ _ => [], fun _ _ => []⟩ ⟨"T", "X"⟩
        ⟨some ⟨some [7]⟩, some ⟨0, []⟩⟩ 12 (List.replicate 12 false)).2.getLast?
          = some (Ev.panicOOB 11)) := by
  refine ⟨by decide, by decide, by decide, by decide, by decide⟩

/-- C5.  The per-identity range-set invariant (strictly sorted, disjoint,
non-adjacent, `min ≤ max`) is NOT preserved by `use` on all valid states:
from the valid state `{[1, 2^63]}`, `use(5)` returns `true` (although 5
is covered) and inserts `[5, 5]`, leaving the overlapping set
`{[1, 2^63], [5, 5]}` — the signed coverage test `floor.max >= value`
sees `2^63` as negative. -/
theorem invariant_not_preserved_near_2_63 :
    rangesOk [⟨1, 2^63⟩] = true ∧
    covers [⟨1, 2^63⟩] 5 = true ∧
    use [⟨1, 2^63⟩] 5 = some (true, [⟨1, 2^63⟩, ⟨5, 5⟩]) ∧
    rangesOk [⟨1, 2^63⟩, ⟨5, 5⟩] = false := by
  refine ⟨by decide, by decide, by decide, by decide⟩





theorem go_isSome (l : List SeqRange) : ∀ (last : Option Range) (acc : List Range),
    (fromProto.go last acc l).isSome = wfFromWrap last l := by
  induction l with
  | nil => intro last acc; cases last <;> simp [fromProto.go, wfFromWrap]
  | cons hd tl ih =>
    intro last acc
    obtain ⟨mn, mx⟩ := hd
    by_cases hmm : mn ≤ mx
    · cases last with
      | none => simp [fromProto.go, wfFromWrap, mkRange, hmm, ih]
      | some lr =>
        by_cases hgap : (lr.max + 1) % M < mn
        · simp [fromProto.go, wfFromWrap, mkRange, hmm, hgap, ih]
        · simp [fromProto.go, wfFromWrap, mkRange, hmm, hgap]
    · cases last <;> simp [fromProto.go, wfFromWrap, mkRange, hmm]

theorem addR_append (acc : List Range) (r : Range)
    (h : ∀ x ∈ acc, x.min < r.min) : addR acc r = acc ++ [r] := by
  induction acc with
  | nil => simp [addR]
  | cons x xs ih =>
    have hx := h x (List.mem_cons_self x xs)
    simp [addR, Nat.lt_asymm hx, Nat.ne_of_gt hx]
    exact ih (fun y hy => h y (List.mem_cons_of_mem x hy))

theorem wfFromStrict_mins (l : List SeqRange) : ∀ (lr : Range),
    wfFromStrict (some lr) l = true → ∀ p ∈ l, lr.max < p.1 := by
  induction l with
  | nil => intro lr _ p hp; cases hp
  | cons hd tl ih =>
    intro lr hwf p hp
    obtain ⟨mn, mx⟩ := hd
    simp only [wfFromStrict, Bool.and_eq_true, decide_eq_true_eq] at hwf
    obtain ⟨⟨hmm, hgap⟩, hrest⟩ := hwf
    rcases List.mem_cons.mp hp with h | h
    · subst h; omega
    · have := ih ⟨mn, mx⟩ hrest p h
      simp at this
      omega

theorem go_strict (l : List SeqRange) : ∀ (last : Option Range) (acc : List Range),
    wfFromStrict last l = true →
    (∀ x ∈ acc, ∀ p ∈ l, x.min < p.1) →
    fromProto.go last acc l = some (acc ++ l.map (fun p => ⟨p.1, p.2⟩)) := by
  induction l with
  | nil => intro last acc _ _; cases last <;> simp [fromProto.go]
  | cons hd tl ih =>
    intro last acc hwf hacc
    obtain ⟨mn, mx⟩ := hd
    have hcur : ∀ p ∈ tl, mx < p.1 := by
      intro p hp
      cases last with
      | none =>
        simp only [wfFromStrict, Bool.and_eq_true, decide_eq_true_eq] at hwf
        have := wfFromStrict_mins tl ⟨mn, mx⟩ hwf.2 p hp
        simpa using this
      | some lr =>
        simp only [wfFromStrict, Bool.and_eq_true, decide_eq_true_eq] at hwf
        have := wfFromStrict_mins tl ⟨mn, mx⟩ hwf.2 p hp
        simpa using this
    have hadd : addR acc ⟨mn, mx⟩ = acc ++ [⟨mn, mx⟩] := by
      apply addR_append
      intro x hx
      exact hacc x hx (mn, mx) (List.mem_cons_self _ _)
    have hacc' : ∀ x ∈ acc ++ [Range.mk mn mx], ∀ p ∈ tl, x.min < p.1 := by
      intro x hx p hp
      rcases List.mem_append.mp hx with h | h
      · exact hacc x h p (List.mem_cons_of_mem _ hp)
      · have hxe : x = Range.mk mn mx := by simpa using h
        subst hxe
        have h1 : mx < p.1 := hcur p hp
        have hmm : mn ≤ mx := by
          cases last <;>
            (simp only [wfFromStrict, Bool.and_eq_true, decide_eq_true_eq] at hwf; omega)
        simp
        omega
    cases last with
    | none =>
      simp only [wfFromStrict, Bool.and_eq_true, decide_eq_true_eq] at hwf
      obtain ⟨hmm, hrest⟩ := hwf
      simp only [fromProto.go, mkRange, if_pos hmm]
      rw [hadd]
      rw [ih (some (Range.mk mn mx)) (acc ++ [Range.mk mn mx]) hrest hacc']
      simp
    | some lr =>
      simp only [wfFromStrict, Bool.and_eq_true, decide_eq_true_eq] at hwf
      obtain ⟨⟨hmm, hgap⟩, hrest⟩ := hwf
      have hgap' : (lr.max + 1) % M < mn := Nat.lt_of_le_of_lt (Nat.mod_le _ _) hgap
      simp only [fromProto.go, mkRange, if_pos hmm, if_pos hgap']
      rw [hadd]
      rw [ih (some (Range.mk mn mx)) (acc ++ [Range.mk mn mx]) hrest hacc']
      simp

/-- C10 counterexample: `fromProto` ACCEPTS the unsorted list
`[[5, 2^64 - 1], [3, 4]]` — the gap check computes `(2^64 - 1) + 1 = 0`
under wrapping `long` arithmetic, and `0 < 3` unsigned — even though the
resulting set is out of order and adjacent (`4 + 1 = 5`). -/
theorem fromProto_accepts_unsorted_wrap :
    fromProto [(5, M - 1), (3, 4)] = some [⟨3, 4⟩, ⟨5, M - 1⟩] ∧
    rangesOk [⟨3, 4⟩, ⟨5, M - 1⟩] = false := by
  refine ⟨by decide, by decide⟩

/-- C10 (amended).  `fromProto` accepts exactly those lists in which
every range has `min ≤ max` (unsigned) and each consecutive pair
satisfies `(prev.max + 1) mod 2^64 < next.min` (unsigned) — which
coincides with the claimed strict-gap condition whenever `prev.max + 1`
does not wrap — and for every list satisfying the exact-arithmetic
strict-gap condition the constructed set contains exactly the given
ranges, in the given order. -/
theorem fromProto_correct (l : List SeqRange) :
    (fromProto l).isSome = protoRangesAccepted l ∧
    (protoRangesStrict l = true →
      fromProto l = some (l.map (fun p => ⟨p.1, p.2⟩))) := by
  constructor
  · exact go_isSome l none []
  · intro hs
    have := go_strict l none [] hs (by intro x hx; cases hx)
    simpa [fromProto] using this

/-- Witness for C10 at the concrete list `[[1, 2], [4, 6]]`. -/
theorem fromProto_correct_witness :
    fromProto [(1, 2), (4, 6)] = some [⟨1, 2⟩, ⟨4, 6⟩] :=
  (fromProto_correct [(1, 2), (4, 6)]).2 (by decide)


theorem lookupSeq_cons_ne (hd : Nat × PendingPayload)
    (tl : List (Nat × PendingPayload)) (k : Nat) (h : hd.1 ≠ k) :
    lookupSeq (hd :: tl) k = lookupSeq tl k := by
  unfold lookupSeq
  rw [List.find?_cons_of_neg]
  simp [h]

theorem lookupSeq_cons_eq (hd : Nat × PendingPayload)
    (tl : List (Nat × PendingPayload)) :
    lookupSeq (hd :: tl) hd.1 = some hd.2 := by
  unfold lookupSeq
  rw [List.find?_cons_of_pos]
  · rfl
  · simp

theorem lookupSeq_map_put (items : List (Nat × PendingPayload)) (k : Nat)
    (v : PendingPayload) (h : items.any (fun p => p.1 == k) = true) :
    lookupSeq (items.map (fun p => if p.1 == k then (k, v) else p)) k = some v := by
  induction items with
  | nil => simp at h
  | cons hd tl ih =>
    by_cases hk : hd.1 = k
    · have hb : (hd.1 == k) = true := by simp [hk]
      simp only [List.map_cons, hb, if_true]
      simpa using lookupSeq_cons_eq (k, v) _
    · have hb : (hd.1 == k) = false := by simp [hk]
      simp only [List.map_cons, hb, Bool.false_eq_true, if_false]
      rw [lookupSeq_cons_ne hd _ k hk]
      apply ih
      simpa [List.any_cons, hb] using h

theorem lookupSeq_append_fresh (items : List (Nat × PendingPayload)) (k : Nat)
    (v : PendingPayload) (h : items.any (fun p => p.1 == k) = false) :
    lookupSeq (items ++ [(k, v)]) k = some v := by
  induction items with
  | nil => simpa using lookupSeq_cons_eq (k, v) []
  | cons hd tl ih =>
    simp only [List.any_cons, Bool.or_eq_false_iff, beq_eq_false_iff_ne] at h
    rw [List.cons_append, lookupSeq_cons_ne hd _ k h.1]
    apply ih
    simpa using h.2

theorem lookupSeq_putSeq (items : List (Nat × PendingPayload)) (k : Nat)
    (v : PendingPayload) : lookupSeq (putSeq items k v) k = some v := by
  by_cases hany : items.any (fun p => p.1 == k) = true
  · rw [putSeq, if_pos hany]
    exact lookupSeq_map_put items k v hany
  · rw [putSeq, if_neg hany]
    refine lookupSeq_append_fresh items k v ?_
    simp only [Bool.not_eq_true] at hany
    exact hany


/-- Characterization of a successful `SendNotification`: on an
initialized store with a valid request, the transaction commits with the
counter advanced to `seq = old + 1` and the sealed envelope stored under
`seq` with `sendAttempts = 0`. -/
theorem sendNotification_ok (ext : ExternalFns) (notif : Notification)
    (s : SenderStore) (sb : SettingsBucket) (sid : List Nat)
    (mb : MessagesBucket)
    (hsb : s.settings = some sb) (hsid : sb.serverID = some sid)
    (hmb : s.messages = some mb)
    (ht : notif.title ≠ "") (hx : notif.text ≠ "") :
    sendNotification ext notif s =
      ({ s with messages := some (MessagesBucket.mk (mb.seqCounter + 1)
          (putSeq mb.items (mb.seqCounter + 1)
            (sealedPending ext sid (mb.seqCounter + 1) notif))) },
       .ok (mb.seqCounter + 1)) := by
  simp [sendNotification, sendNotificationTxBody, sealedPending,
    hsb, hsid, hmb, ht, hx]

/-- C7.  The allocate-and-enqueue transaction of `SendNotification` is
atomic: on success the RPC returns the allocated sequence with the
counter advanced by one AND the new pending record stored under that
sequence, committed together; on any failure the RPC returns an error
and the store is unchanged (no partial mutation) — so a state with the
counter advanced but the pending message missing is unreachable. -/
theorem sendNotification_atomic (ext : ExternalFns) (notif : Notification)
    (s : SenderStore) :
    (∀ s1 e, sendNotification ext notif s = (s1, .error e) → s1 = s) ∧
    (∀ s1 seq, sendNotification ext notif s = (s1, .ok seq) →
      ∃ mb mb1, s.messages = some mb ∧ s1.messages = some mb1 ∧
        s1.settings = s.settings ∧
        mb1.seqCounter = mb.seqCounter + 1 ∧ seq = mb.seqCounter + 1 ∧
        ∃ pp, lookupSeq mb1.items seq = some pp ∧ pp.sendAttempts = 0) := by
  obtain ⟨setts, msgs⟩ := s
  by_cases ht : notif.title = ""
  · refine ⟨fun s1 e h => ?_, fun s1 seq h => ?_⟩
    · simp [sendNotification, ht] at h
      exact h.1.symm
    · simp [sendNotification, ht] at h
  by_cases hx : notif.text = ""
  · refine ⟨fun s1 e h => ?_, fun s1 seq h => ?_⟩
    · simp [sendNotification, ht, hx] at h
      exact h.1.symm
    · simp [sendNotification, ht, hx] at h
  rcases setts with _ | ⟨sidopt⟩
  · refine ⟨fun s1 e h => ?_, fun s1 seq h => ?_⟩
    · simp [sendNotification, sendNotificationTxBody, ht, hx] at h
      exact h.1.symm
    · simp [sendNotification, sendNotificationTxBody, ht, hx] at h
  rcases sidopt with _ | sid
  · refine ⟨fun s1 e h => ?_, fun s1 seq h => ?_⟩
    · simp [sendNotification, sendNotificationTxBody, ht, hx] at h
      exact h.1.symm
    · simp [sendNotification, sendNotificationTxBody, ht, hx] at h
  rcases msgs with _ | ⟨c, items⟩
  · refine ⟨fun s1 e h => ?_, fun s1 seq h => ?_⟩
    · simp [sendNotification, sendNotificationTxBody, ht, hx] at h
      exact h.1.symm
    · simp [sendNotification, sendNotificationTxBody, ht, hx] at h
  have hok := sendNotification_ok ext notif
      ⟨some ⟨some sid⟩, some ⟨c, items⟩⟩ ⟨some sid⟩ sid ⟨c, items⟩
      rfl rfl rfl ht hx
  refine ⟨fun s1 e h => ?_, fun s1 seq h => ?_⟩
  · rw [hok] at h
    simp at h
  · rw [hok] at h
    simp only [Prod.mk.injEq] at h
    obtain ⟨h1, h2⟩ := h
    simp only [Except.ok.injEq] at h2
    subst h2
    subst h1
    refine ⟨⟨c, items⟩, _, rfl, rfl, rfl, rfl, rfl, ?_⟩
    exact ⟨_, lookupSeq_putSeq items (c + 1) _, rfl⟩




/-- Witness for C7: the concrete successful call on `store0` commits the
advanced counter together with the stored pending record. -/
theorem sendNotification_atomic_witness :
    ∃ mb mb1, store0.messages = some mb ∧ store1.messages = some mb1 ∧
      store1.settings = store0.settings ∧
      mb1.seqCounter = mb.seqCounter + 1 ∧ (1 : Nat) = mb.seqCounter + 1 ∧
      ∃ pp, lookupSeq mb1.items 1 = some pp ∧ pp.sendAttempts = 0 :=
  (sendNotification_atomic ext0 ⟨"T", "X"⟩ store0).2 store1 1 (by rfl)

/-- C6.  Successful enqueue calls allocate consecutive sequence numbers
in call order with no gap and no repeat — from a fresh store, exactly
`1, 2, …, N` — including across kill-and-restart between calls, because
the counter is read from and persisted to the durable bucket inside each
transaction and `main` never resets it. -/
theorem seq_allocation_in_order (ext : ExternalFns) (acts : List SAction) :
    ∀ (s : SenderStore), initialized s → allValid acts →
      (runActions ext s acts).2 =
        List.range' (nextSeqOf s + 1) (numSends acts) := by
  induction acts with
  | nil =>
    intro s _ _
    simp [runActions, numSends]
  | cons a rest ih =>
    intro s hinit hv
    obtain ⟨⟨sb, sid, hsb, hsid⟩, mb, hmb⟩ := hinit
    cases a with
    | send notif =>
      obtain ⟨ht, hx, hv2⟩ := hv
      have hok := sendNotification_ok ext notif s sb sid mb hsb hsid hmb ht hx
      rw [runActions, hok]
      have hinit2 : initialized { s with messages := some (MessagesBucket.mk
          (mb.seqCounter + 1) (putSeq mb.items (mb.seqCounter + 1)
            (sealedPending ext sid (mb.seqCounter + 1) notif))) } :=
        ⟨⟨sb, sid, hsb, hsid⟩, _, rfl⟩
      dsimp only
      rw [ih _ hinit2 hv2]
      simp [nextSeqOf, hmb, numSends, List.range'_succ]
    | restart newSid =>
      have hre : (restartInit s newSid).1 = ⟨some sb, some mb⟩ := by
        simp [restartInit, hsb, hmb, hsid]
      rw [runActions, hre]
      have hinit2 : initialized (⟨some sb, some mb⟩ : SenderStore) :=
        ⟨⟨sb, sid, rfl, hsid⟩, mb, rfl⟩
      rw [ih _ hinit2 hv]
      simp [nextSeqOf, hmb, numSends]

/-- Witness for C6: three sends with a restart interleaved, from the
fresh store, allocate exactly `[1, 2, 3]`. -/
theorem seq_allocation_in_order_witness :
    (runActions ext0 store0
      [SAction.send ⟨"T", "X"⟩, SAction.restart [9],
       SAction.send ⟨"A", "B"⟩, SAction.send ⟨"C", "D"⟩]).2 = [1, 2, 3] := by
  have h := seq_allocation_in_order ext0
      [SAction.send ⟨"T", "X"⟩, SAction.restart [9],
       SAction.send ⟨"A", "B"⟩, SAction.send ⟨"C", "D"⟩] store0
      ⟨⟨⟨some [7]⟩, [7], rfl, rfl⟩, ⟨0, []⟩, rfl⟩
      ⟨by decide, by decide, by decide, by decide, by decide, by decide, trivial⟩
  simpa using h

/-- Characterization of one retry iteration when the stored attempt
count is below the schedule length: the transaction persists the
incremented counter, then the loop sleeps the schedule delay indexed by
the OLD count, then makes exactly one gateway attempt with the stored
payload (followed by deletion on success). -/
theorem sendPayloadIter_lt (s : SenderStore) (seq : Nat) (g : Bool)
    (mb : MessagesBucket) (pp : PendingPayload)
    (hmb : s.messages = some mb)
    (hlk : lookupSeq mb.items seq = some pp)
    (ha : pp.sendAttempts < waits.length) :
    ∃ w, waits[pp.sendAttempts]? = some w ∧
      (sendPayloadIter s seq g).2.1 =
        Ev.persistAttempts seq (pp.sendAttempts + 1) ::
          ((if 0 < w then [Ev.sleep w] else []) ++
            Ev.gateway seq pp.payload ::
              (if g then [Ev.deleteDelivered seq] else [])) ∧
      (g = false →
        (sendPayloadIter s seq g).1.messages =
          some (MessagesBucket.mk mb.seqCounter
            (putSeq mb.items seq ({ pp with sendAttempts := pp.sendAttempts + 1 }))) ∧
        (sendPayloadIter s seq g).2.2 = Ctl.cont) := by
  have hw : waits[pp.sendAttempts]? = some waits[pp.sendAttempts] :=
    List.getElem?_eq_getElem ha
  refine ⟨waits[pp.sendAttempts], hw, ?_, ?_⟩
  · cases g <;>
      simp [sendPayloadIter, hmb, hlk, ha, hw]
  · intro hg
    subst hg
    constructor <;> simp [sendPayloadIter, hmb, hlk, ha, hw]

/-- A gateway attempt within one retry iteration is only ever made for
the sequence number the goroutine serves, with the payload read from the
durable store in that same iteration. -/
theorem gateway_requires_stored (s : SenderStore) (seq : Nat) (g : Bool)
    (sq : Nat) (p : Envelope)
    (h : Ev.gateway sq p ∈ (sendPayloadIter s seq g).2.1) :
    sq = seq ∧ ∃ mb pp, s.messages = some mb ∧
      lookupSeq mb.items seq = some pp ∧ p = pp.payload := by
  rcases hmb : s.messages with _ | mb
  · simp [sendPayloadIter, hmb] at h
  rcases hlk : lookupSeq mb.items seq with _ | pp
  · simp [sendPayloadIter, hmb, hlk] at h
  by_cases ha : pp.sendAttempts < waits.length
  · obtain ⟨w, hw, hevs, _⟩ := sendPayloadIter_lt s seq g mb pp hmb hlk ha
    rw [hevs] at h
    by_cases hw0 : 0 < w <;> cases g <;> simp [hw0] at h <;>
      exact ⟨h.1, mb, pp, rfl, hlk, h.2⟩
  · have hn : waits[pp.sendAttempts]? = none :=
      List.getElem?_eq_none (Nat.le_of_not_lt ha)
    simp [sendPayloadIter, hmb, hlk, ha, hn] at h

/-- Every gateway event the retry loop emits concerns the sequence
number the loop serves. -/
theorem loop_gateway_seq (seq : Nat) : ∀ (fuel : Nat) (s : SenderStore)
    (gw : List Bool) (sq : Nat) (p : Envelope),
    Ev.gateway sq p ∈ (sendPayloadLoop fuel s seq gw).2 → sq = seq := by
  intro fuel
  induction fuel with
  | zero =>
    intro s gw sq p h
    simp [sendPayloadLoop] at h
  | succ fuel ih =>
    intro s gw sq p h
    rcases hit : sendPayloadIter s seq (gw.headD false) with ⟨s1, evs, ctl⟩
    have hevs : (sendPayloadIter s seq (gw.headD false)).2.1 = evs := by
      rw [hit]
    rw [sendPayloadLoop, hit] at h
    cases ctl with
    | ret =>
      dsimp at h
      exact (gateway_requires_stored s seq (gw.headD false) sq p
        (hevs ▸ h)).1
    | panicked =>
      dsimp at h
      exact (gateway_requires_stored s seq (gw.headD false) sq p
        (hevs ▸ h)).1
    | cont =>
      dsimp at h
      rcases List.mem_append.mp h with h2 | h2
      · exact (gateway_requires_stored s seq (gw.headD false) sq p
          (hevs ▸ h2)).1
      · exact ih s1 gw.tail sq p h2

/-- C8.  Write-ahead: in the full program-order trace of one
`SendNotification` RPC (transaction commit, then the spawned
`sendPayload` goroutine), every gateway attempt for a sequence number is
strictly preceded by the durable commit of its pending message; and a
gateway attempt is only ever made when the message was present in
durable storage at the moment its payload was read, with exactly the
stored payload. -/
theorem pending_persisted_before_gateway (ext : ExternalFns)
    (notif : Notification) (s : SenderStore) (fuel : Nat) (gw : List Bool) :
    (∀ (i : Nat) (sq : Nat) (p : Envelope),
      ((handleSend ext notif s fuel gw).2)[i]? = some (Ev.gateway sq p) →
      ∃ j, j < i ∧
        ((handleSend ext notif s fuel gw).2)[j]? =
          some (Ev.commitEnqueue sq)) ∧
    (∀ s2 seq g sq p, Ev.gateway sq p ∈ (sendPayloadIter s2 seq g).2.1 →
      sq = seq ∧ ∃ mb pp, s2.messages = some mb ∧
        lookupSeq mb.items seq = some pp ∧ p = pp.payload) := by
  constructor
  · intro i sq p h
    rcases hsn : sendNotification ext notif s with ⟨s1, r⟩
    rcases r with e | seq0
    · rw [handleSend, hsn] at h
      simp at h
    · rcases hlp : sendPayloadLoop fuel s1 seq0 gw with ⟨s2, evs⟩
      have htr : (handleSend ext notif s fuel gw).2 =
          Ev.commitEnqueue seq0 :: evs := by
        rw [handleSend, hsn]
        dsimp
        rw [hlp]
      rw [htr] at h ⊢
      match i, h with
      | 0, h => simp at h
      | i + 1, h =>
        have hmem : Ev.gateway sq p ∈ evs := by
          apply List.getElem?_mem
          simpa using h
        have hsq : sq = seq0 := by
          apply loop_gateway_seq seq0 fuel s1 gw sq p
          rw [hlp]
          exact hmem
        refine ⟨0, Nat.succ_pos i, ?_⟩
        subst hsq
        simp
  · intro s2 seq g sq p h
    exact gateway_requires_stored s2 seq g sq p h

/-- Witness for C8: in the concrete trace of a successful send, the
gateway attempt at index 2 is preceded by the commit at index 0. -/
theorem pending_persisted_before_gateway_witness :
    ∃ j, j < 2 ∧
      ((handleSend ext0 ⟨"T", "X"⟩ store0 2 [true]).2)[j]? =
        some (Ev.commitEnqueue 1) :=
  (pending_persisted_before_gateway ext0 ⟨"T", "X"⟩ store0 2 [true]).1 2 1
    ⟨[], nonceOf [7] 1⟩ (by rfl)

/-- C9.  Crash recovery: at startup every pending message found in
durable storage is resumed into the retry loop (its sequence appears in
the spawned list) with its persisted attempt count intact; and in every
iteration with stored attempts `a < K`, the incremented counter `a + 1`
is persisted (first event), before the loop sleeps the schedule delay
for the OLD count `a`, before the gateway is called with the stored
payload. -/
theorem crash_recovery_resumes_pending (s : SenderStore) (newSid : List Nat)
    (mb : MessagesBucket) (hmb : s.messages = some mb) :
    (restartInit s newSid).2 = mb.items.map (fun p => p.1) ∧
    (restartInit s newSid).1.messages = some mb ∧
    (∀ s2 seq g mb2 pp, s2.messages = some mb2 →
      lookupSeq mb2.items seq = some pp →
      pp.sendAttempts < waits.length →
      ∃ w, waits[pp.sendAttempts]? = some w ∧
        (sendPayloadIter s2 seq g).2.1 =
          Ev.persistAttempts seq (pp.sendAttempts + 1) ::
            ((if 0 < w then [Ev.sleep w] else []) ++
              Ev.gateway seq pp.payload ::
                (if g then [Ev.deleteDelivered seq] else []))) := by
  refine ⟨?_, ?_, ?_⟩
  · simp [restartInit, hmb]
  · simp [restartInit, hmb]
  · intro s2 seq g mb2 pp h1 h2 h3
    obtain ⟨w, hw, hevs, _⟩ := sendPayloadIter_lt s2 seq g mb2 pp h1 h2 h3
    exact ⟨w, hw, hevs⟩


/-- Witness for C9 on `storeP`: sequence 3 is resumed, and its next
iteration persists attempts 5, sleeps `waits[4] = 8`, then calls the
gateway with the stored payload. -/
theorem crash_recovery_resumes_pending_witness :
    (restartInit storeP [9]).2 = [3] ∧
    ∃ w, waits[4]? = some w ∧
      (sendPayloadIter (restartInit storeP [9]).1 3 false).2.1 =
        Ev.persistAttempts 3 5 ::
          ((if 0 < w then [Ev.sleep w] else []) ++
            Ev.gateway 3 (Envelope.mk [2] [3]) ::
              (if (false : Bool) then [Ev.deleteDelivered 3] else [])) := by
  have h := crash_recovery_resumes_pending storeP [9]
    ⟨5, [(3, ⟨⟨[2], [3]⟩, 4⟩)]⟩ rfl
  exact ⟨h.1, h.2.2 (restartInit storeP [9]).1 3 false
    ⟨5, [(3, ⟨⟨[2], [3]⟩, 4⟩)]⟩ ⟨⟨[2], [3]⟩, 4⟩ (by rfl) (by rfl) (by decide)⟩

end BNotify
